import Mathlib

/-!
Verification of the ArduinoFRTOSGCPP library against its specification.

The development shallowly embeds the data structures and algorithms of the
repository:

* `nText.cTextLine` / `nText.setLineRun` (src/text.h, `cTextLine::setLine` and
  the constructors),
* `nText.readLineLoop` / `nText.writeLineLoop` (src/text.h,
  `cTexter::blockingReadLine` and `cTexter::blockingWriteLine`),
* `nFRTOS.peek` / `nFRTOS.receive` (frtos.h, `cQueue::peek` / `cQueue::receive`),
* `nPattern.cObserved` with `appendObserver` / `notify` (pattern.h),
* `nSupport.attach` / `nSupport.deattach` (support.h, `cIrqMonitor`).

Bytes are modelled as `Nat` values; the C++ 8-bit quantities (`uint8_t`
fields and parameters, plain `char` counters on the ARM targets named in the
file headers, where plain `char` is unsigned) are reduced modulo 256 exactly
where the C++ conversions happen.  Character buffers are `List Nat`; memory
just outside an array (read by `_scLine[_ucLength-1]` when `_ucLength` is 0)
is modelled by an explicit garbage parameter.
-/

namespace nText

/-- State of a `cTextLine<N>` object: the `_scLine` character array
(`N + 1` bytes) and the `_ucLength` field (a `uint8_t`). -/
structure cTextLine where
  _scLine : List Nat
  _ucLength : Nat
deriving DecidableEq, Repr

/-- Conversion of an `int` value to `uint8_t` (C++ narrowing, modulo 256). -/
def truncU8 (i : Int) : Nat := (i % 256).toNat

/-- The copy loop of `setLine` (src/text.h lines 64-66): for
`ucI = 0 .. len-1`, `_scLine[ucI] = pcsData[ucI]`.  Reads of `pcsData` past
the end of the modelled source list return 0. -/
def copyChars (buf : List Nat) (src : List Nat) (len : Nat) : List Nat :=
  (List.range len).foldl (fun b i => b.set i (src.getD i 0)) buf

/-- Result of running `setLine`: the new object state together with the list
of `_scLine` indices accessed (read or written), in program order, as `Int`
so that an out-of-bounds access at index -1 is representable. -/
structure SetLineResult where
  state : cTextLine
  accesses : List Int
deriving DecidableEq, Repr

/-- `cTextLine<N>::setLine(pcsData, ucLength)` (src/text.h lines 58-72).
`g` is the byte that sits in memory directly before `_scLine` (read by the
terminator check `_scLine[_ucLength-1]` when `_ucLength = 0`).  The
`ucLength` parameter is a `uint8_t`, hence the modulo 256 at entry; the
comparison `ucLength > N-1` is `int` arithmetic, hence the `Int` cast; the
assignment `_ucLength = N-1` narrows to `uint8_t`, hence `truncU8`. -/
def setLineRun (N : Nat) (st : cTextLine) (g : Nat) (src : List Nat)
    (ucLengthArg : Nat) : SetLineResult :=
  let ucLength := ucLengthArg % 256
  let len := if ((ucLength : Int) > (N : Int) - 1) then truncU8 ((N : Int) - 1)
             else ucLength
  let buf1 := copyChars st._scLine src len
  let lastVal := if len = 0 then g else buf1.getD (len - 1) 0
  let buf2 := if lastVal ≠ 0 then buf1.set len 0 else buf1
  { state := { _scLine := buf2, _ucLength := len }
  , accesses := (List.range len).map (fun i => (i : Int)) ++ [(len : Int) - 1]
      ++ (if lastVal ≠ 0 then [(len : Int)] else []) }

/-- `cTextLine<N>::setLine`, state part only. -/
def setLine (N : Nat) (st : cTextLine) (g : Nat) (src : List Nat)
    (ucLength : Nat) : cTextLine :=
  (setLineRun N st g src ucLength).state

/-- `cTextLine::getLineLength` (src/text.h lines 92-94). -/
def getLineLength (st : cTextLine) : Nat := st._ucLength

/-- The default constructor `cTextLine() : _ucLength(N)` (src/text.h line
26): the buffer is left uninitialized (modelled by the caller-supplied
garbage contents `b`) and `_ucLength` is initialized with `N`, narrowed to
`uint8_t`. -/
def defaultCtor (N : Nat) (b : List Nat) : cTextLine :=
  { _scLine := b, _ucLength := N % 256 }

/-- The constructor `cTextLine(const char *pcsData)` (src/text.h lines
35-37): `setLine(pcsData, strlen(pcsData))`.  `src` is the list of the
(non-NUL) bytes of the source string, so `strlen` is `src.length`; the
`uint8_t` parameter narrows it modulo 256 (inside `setLine`).  `b` is the
uninitialized buffer contents of the fresh object. -/
def ofString (N : Nat) (b : List Nat) (g : Nat) (src : List Nat) : cTextLine :=
  setLine N { _scLine := b, _ucLength := 0 } g src src.length

/-- The loop of `cTexter<N>::blockingReadLine` (src/text.h lines 141-168),
driven by the list of bytes the character source successively yields
(iterations where `characterRead` fails only delay and are dropped).  State:
the caller buffer `buf` (`pscData`), `scLast` and `ucLength`.  Returns
`some (finalBuffer, finalLength)` when the loop hits its `break`; `none`
when the source is exhausted first (the real loop would block forever).
Carriage return is byte 13, line feed is byte 10. -/
def readLineLoop (N : Nat) (buf : List Nat) (scLast : Nat) (ucLength : Nat) :
    List Nat → Option (List Nat × Nat)
  | [] => none
  | scCurrent :: rest =>
    let ucL0 := if ucLength ≥ N then 0 else ucLength
    let buf1 := buf.set ucL0 scCurrent
    let ucL1 := ucL0 + 1
    if scCurrent = 10 ∧ scLast = 13 ∧ ucL1 > 1 then
      some (buf1.set ucL1 0, ucL1)
    else
      readLineLoop N buf1 scCurrent ucL1 rest

/-- `cTexter<N>::blockingReadLine`, from the initial state
`scLast = 0, ucLength = 0`. -/
def blockingReadLine (N : Nat) (buf : List Nat) (input : List Nat) :
    Option (List Nat × Nat) :=
  readLineLoop N buf 0 0 input

/-- The loop of `cTexter<N>::blockingWriteLine` (src/text.h lines 178-191).
`ucLength` is declared `char`; on the ARM targets named in the file headers
plain `char` is unsigned, so the post-increment wraps modulo 256.  `fuel`
bounds the number of iterations of the modelled run (the C++ loop has no
such bound); the result is `(exitedByBreak, charactersWrittenInOrder)`. -/
def writeLineLoop (N : Nat) (src : List Nat) :
    Nat → Nat → List Nat → Bool × List Nat
  | 0, _, acc => (false, acc)
  | Nat.succ fuel, ucLength, acc =>
    let scCurrent := src.getD ucLength 0
    let ucL1 := (ucLength + 1) % 256
    if scCurrent = 0 then (true, acc)
    else if ucL1 ≥ N then (true, acc ++ [scCurrent])
    else writeLineLoop N src fuel ucL1 (acc ++ [scCurrent])

/-- `cTexter<N>::blockingWriteLine`: run the loop from `ucLength = 0`.
`src` lists the bytes of the NUL-terminated source up to (not including) its
terminator; reads beyond it return the terminator 0. -/
def blockingWriteLine (N : Nat) (src : List Nat) (fuel : Nat) :
    Bool × List Nat :=
  writeLineLoop N src fuel 0 []

/-- Modelled from the claim wording for comparison: the characters
`blockingWriteLine` is expected to emit, starting at source index `uc` with
at most `cap` characters still allowed: emit source characters in order,
stopping at the first NUL (which is not emitted) or when the allowance is
exhausted, whichever comes first. -/
def writeSpec (src : List Nat) : Nat → Nat → List Nat
  | 0, _ => []
  | Nat.succ cap, uc =>
    if src.getD uc 0 = 0 then [] else src.getD uc 0 :: writeSpec src cap (uc + 1)

/-- A buffer is terminator-delimited at position `L`: byte `L` is NUL and no
earlier byte is.  (Property language for the claims about `getLine()`.) -/
def nulTerminatedAt (buf : List Nat) (L : Nat) : Prop :=
  buf.getD L 0 = 0 ∧ ∀ i, i < L → buf.getD i 0 ≠ 0

end nText

namespace nFRTOS

/-- `cQueue<QType>::receive(xData, ...)` (frtos.h lines 282-290), with the
FreeRTOS queue modelled as the list of queued elements (head = front) and an
infinite timeout.  `xQueueReceive` is passed `&xData`: on success the front
element is removed and written into `xData`.  Returns
`(bReceived, xData afterwards, queue afterwards)`. -/
def receive (q : List Nat) (xData : Nat) : Bool × Nat × List Nat :=
  match q with
  | [] => (false, xData, [])
  | x :: t => (true, x, t)

/-- `cQueue<QType>::peek(bReceived, ...)` (frtos.h lines 263-272), same
queue model.  The code passes `static_cast<void *>(xData)` - the VALUE of
the uninitialized local `xData` - to `xQueuePeek` instead of `&xData`, so
the peeked element is stored through that stray address and `xData` itself
is never written: the function returns the uninitialized value (modelled by
the parameter `xDataInit`) whatever the queue holds.  Returns
`(returned element, bReceived)`; the queue is unchanged. -/
def peek (q : List Nat) (xDataInit : Nat) : Nat × Bool :=
  match q with
  | [] => (xDataInit, false)
  | _ :: _ => (xDataInit, true)

end nFRTOS

namespace nPattern

/-- `COBSERVED_LISTENER_MAX` (pattern.h line 69, default). -/
def COBSERVED_LISTENER_MAX : Nat := 6

/-- State of a `cObserved` object: the `_ulEvent` tag, the
`_ucListenerCount` field and the `_pxListener` array of
`COBSERVED_LISTENER_MAX` observer pointers (NULL = `none`; a non-null
`cObserver*` is identified by a `Nat`). -/
structure cObserved where
  _ulEvent : Nat
  _ucListenerCount : Nat
  _pxListener : List (Option Nat)
deriving DecidableEq, Repr

/-- The `cObserved` constructor (pattern.h lines 80-82): zero listeners and
the pointer array `memset` to NULL. -/
def mkObserved (ulEvent : Nat) : cObserved :=
  { _ulEvent := ulEvent
  , _ucListenerCount := 0
  , _pxListener := List.replicate COBSERVED_LISTENER_MAX none }

/-- `cObserved::appendObserver` (pattern.h lines 92-96). -/
def appendObserver (st : cObserved) (pxL : Option Nat) : cObserved :=
  if st._ucListenerCount < COBSERVED_LISTENER_MAX then
    { st with
      _pxListener := st._pxListener.set st._ucListenerCount pxL
      _ucListenerCount := st._ucListenerCount + 1 }
  else st

/-- A sequence of `appendObserver` calls, in order. -/
def appendAll (st : cObserved) (ls : List (Option Nat)) : cObserved :=
  ls.foldl appendObserver st

/-- The loop of `cObserved::notify` (pattern.h lines 103-117) from index
`i`: skip NULL slots, invoke `update` (whose result for listener `l` is
`upd l`), stop at the first listener that returns true.  Returns the list of
listeners invoked, in order. -/
def notifyFrom (upd : Nat → Bool) (count : Nat) (slots : List (Option Nat))
    (i : Nat) : List Nat :=
  if _h : i < count then
    match slots.getD i none with
    | none => notifyFrom upd count slots (i + 1)
    | some l => if upd l then [l] else l :: notifyFrom upd count slots (i + 1)
  else []
termination_by count - i

/-- `cObserved::notify`: run the loop from index 0 and report the invoked
listeners in order. -/
def notify (st : cObserved) (upd : Nat → Bool) : List Nat :=
  notifyFrom upd st._ucListenerCount st._pxListener 0

/-- Modelled from the claim wording for comparison: offer the notification
to the registered listeners in registration order, stopping at (and
including) the first whose `update` accepts. -/
def notifySpec (upd : Nat → Bool) : List Nat → List Nat
  | [] => []
  | l :: t => if upd l then [l] else l :: notifySpec upd t

end nPattern

namespace nSupport

/-- `CIRQMONITORED_MAX` (support.h line 30). -/
def CIRQMONITORED_MAX : Nat := 24

/-- `cIrqMonitor::attach` (support.h lines 89-104), with the static
`_handler` slot array modelled as a list of 24 optional handler identities.
The condition `(pin<CIRQMONITORED_MAX) && (!*h)` short-circuits, so the slot
is only consulted for an in-range pin.  Returns `(attached, new table)`;
the `attachInterrupt` call is an external side effect outside the model. -/
def attach (tbl : List (Option Nat)) (pin : Nat) (handler : Nat) :
    Bool × List (Option Nat) :=
  if pin < CIRQMONITORED_MAX ∧ tbl.getD pin none = none then
    (true, tbl.set pin (some handler))
  else (false, tbl)

/-- `cIrqMonitor::deattach` (support.h lines 113-125): clear the slot if the
pin is in range and occupied; report whether something was cleared. -/
def deattach (tbl : List (Option Nat)) (pin : Nat) : Bool × List (Option Nat) :=
  if pin < CIRQMONITORED_MAX ∧ (tbl.getD pin none).isSome then
    (true, tbl.set pin none)
  else (false, tbl)

/-- `cIrqMonitor::isAttached` (support.h lines 136-145). -/
def isAttached (tbl : List (Option Nat)) (pin : Nat) : Bool :=
  decide (pin < CIRQMONITORED_MAX) && (tbl.getD pin none).isSome

end nSupport

/-! ## Generic list helper lemmas -/

theorem getD_set_self {α : Type} :
    ∀ (l : List α) (i : Nat) (v d : α), i < l.length → (l.set i v).getD i d = v
  | [], i, v, d, h => absurd h (by simp)
  | a :: t, 0, v, d, _ => rfl
  | a :: t, i + 1, v, d, h => getD_set_self t i v d (by simpa using h)

theorem getD_set_ne {α : Type} :
    ∀ (l : List α) (i j : Nat) (v d : α), i ≠ j →
      (l.set i v).getD j d = l.getD j d
  | [], _, _, _, _, _ => by simp [List.set]
  | a :: t, 0, 0, v, d, h => absurd rfl h
  | a :: t, 0, j + 1, v, d, _ => rfl
  | a :: t, i + 1, 0, v, d, _ => rfl
  | a :: t, i + 1, j + 1, v, d, h =>
      getD_set_ne t i j v d (fun e => h (by omega))

theorem getD_append_left {α : Type} :
    ∀ (xs ys : List α) (i : Nat) (d : α), i < xs.length →
      (xs ++ ys).getD i d = xs.getD i d
  | [], _, i, d, h => absurd h (by simp)
  | a :: t, ys, 0, d, _ => rfl
  | a :: t, ys, i + 1, d, h => getD_append_left t ys i d (by simpa using h)

theorem getD_append_right {α : Type} :
    ∀ (xs ys : List α) (d : α), (xs ++ ys).getD xs.length d = ys.getD 0 d
  | [], _, _ => rfl
  | _ :: t, ys, d => getD_append_right t ys d

theorem getD_mem {α : Type} :
    ∀ (l : List α) (i : Nat) (d : α), i < l.length → l.getD i d ∈ l
  | [], i, d, h => absurd h (by simp)
  | a :: t, 0, d, _ => List.mem_cons_self a t
  | a :: t, i + 1, d, h =>
      List.mem_cons_of_mem a (getD_mem t i d (by simpa using h))

theorem set_append_left_length {α : Type} :
    ∀ (xs ys : List α) (v : α), (xs ++ ys).set xs.length v = xs ++ ys.set 0 v
  | [], _, _ => rfl
  | a :: t, ys, v => congrArg (List.cons a) (set_append_left_length t ys v)

/-! ## Helper lemmas about the `setLine` copy loop -/

theorem copyChars_succ (buf src : List Nat) (len : Nat) :
    nText.copyChars buf src (len + 1) =
      (nText.copyChars buf src len).set len (src.getD len 0) := by
  unfold nText.copyChars
  rw [List.range_succ, List.foldl_append]
  rfl

theorem copyChars_length (buf src : List Nat) (len : Nat) :
    (nText.copyChars buf src len).length = buf.length := by
  induction len with
  | zero => rfl
  | succ n ih => rw [copyChars_succ, List.length_set, ih]

theorem copyChars_getD_lt (buf src : List Nat) (len i : Nat)
    (hi : i < len) (hb : len ≤ buf.length) :
    (nText.copyChars buf src len).getD i 0 = src.getD i 0 := by
  induction len with
  | zero => omega
  | succ n ih =>
      rw [copyChars_succ]
      rcases Nat.lt_or_ge i n with h | h
      · rw [getD_set_ne _ _ _ _ _ (by omega)]
        exact ih h (by omega)
      · have : i = n := by omega
        subst this
        exact getD_set_self _ _ _ _ (by rw [copyChars_length]; omega)

theorem copyChars_getD_ge (buf src : List Nat) (len i : Nat) (h : len ≤ i) :
    (nText.copyChars buf src len).getD i 0 = buf.getD i 0 := by
  induction len with
  | zero => rfl
  | succ n ih =>
      rw [copyChars_succ, getD_set_ne _ _ _ _ _ (by omega)]
      exact ih (by omega)

/-! ## Claim C1 -/

/-- Claim C1, counterexample: fed only carriage return (13) then line feed
(10) immediately, `blockingReadLine` with `N = 8` DOES terminate on that
pair, with stored length 2 - `ucLength` is incremented to 2 before the
`ucLength > 1` guard is tested, so no third character is needed. -/
theorem C1_cex :
    nText.blockingReadLine 8 (List.replicate 9 0) [13, 10] =
      some ([13, 10, 0, 0, 0, 0, 0, 0, 0], 2) := by decide

/-- Claim C1 as amended: for every `N ≥ 2`, `blockingReadLine` driven by a
source that yields only carriage return (13) then line feed (10) terminates
on that pair, storing the two characters, a NUL at index 2, and final length
2.  The `ucLength > 1` guard counts the pair itself, so it only defers
completion when the line feed was stored at index 0 after a buffer
wrap-around. -/
theorem C1_immediate_crlf_terminates (N : Nat) (buf : List Nat) (h : 2 ≤ N) :
    nText.blockingReadLine N buf [13, 10] =
      some (((buf.set 0 13).set 1 10).set 2 0, 2) := by
  unfold nText.blockingReadLine
  simp only [nText.readLineLoop]
  norm_num
  simp only [if_neg (show ¬ N ≤ 1 by omega)]
  norm_num

/-- Claim C1, witness for the amended theorem at `N = 8`. -/
theorem C1_witness :
    2 ≤ 8 ∧
      nText.blockingReadLine 8 (List.replicate 9 0) [13, 10] =
        some ((((List.replicate 9 0).set 0 13).set 1 10).set 2 0, 2) :=
  ⟨by decide, C1_immediate_crlf_terminates 8 (List.replicate 9 0) (by decide)⟩

/-! ## Claim C2 -/

/-- Claim C2, evaluation at the failing input: on the one-element queue
`[5]`, `peek` (uninitialized local modelled as 0) reports `bReceived = true`
yet returns 0, while `receive` returns the head 5 - `xQueuePeek` is handed
`static_cast<void *>(xData)`, the value of the uninitialized local, instead
of `&xData`, so the peeked element is never stored into the variable the
method returns. -/
theorem C2_peek_eval :
    nFRTOS.peek [5] 0 = (0, true) ∧
      nFRTOS.receive [5] 0 = (true, 5, []) ∧ (0 : Nat) ≠ 5 := by decide

/-! ## Claim C3 -/

/-- Claim C3, counterexample: a default-constructed `cTextLine<4>` (any
garbage buffer contents, here all zero) reports stored length 4, which
violates the claimed invariant `stored length ≤ N - 1 = 3` - the default
constructor initializes `_ucLength` with `N`, not with a value below `N`. -/
theorem C3_cex :
    nText.getLineLength (nText.defaultCtor 4 (List.replicate 5 0)) = 4 ∧
      ¬ (4 ≤ 4 - 1) := by decide

/-- Claim C3 as amended: for every `N ≥ 1` the invariant
`stored length ≤ N - 1` holds after every `setLine` call (with any source
and any length argument), hence after both string constructors, which
delegate to `setLine`; it does not hold after default construction, which
sets the stored length to `N` (mod 256). -/
theorem C3_setLine_length_le (N : Nat) (st : nText.cTextLine) (g : Nat)
    (src : List Nat) (L : Nat) (h : 1 ≤ N) :
    nText.getLineLength (nText.setLine N st g src L) ≤ N - 1 := by
  have hlen : nText.getLineLength (nText.setLine N st g src L) =
      (if (((L % 256 : Nat) : Int) > (N : Int) - 1) then
        nText.truncU8 ((N : Int) - 1) else L % 256) := rfl
  rw [hlen]
  split
  · unfold nText.truncU8
    omega
  · omega

/-- Claim C3, witness for the amended theorem at `N = 4`, a length-5 source
truncated to 3. -/
theorem C3_witness :
    1 ≤ 4 ∧
      nText.getLineLength
        (nText.setLine 4 ⟨List.replicate 5 0, 0⟩ 0 [1, 2, 3, 4, 5] 5) ≤ 4 - 1 :=
  ⟨by decide, C3_setLine_length_le 4 ⟨List.replicate 5 0, 0⟩ 0 [1, 2, 3, 4, 5] 5
    (by decide)⟩

/-! ## Claim C10 -/

/-- Claim C10, evaluation at the failing input: `setLine` called with length
argument 0 (for `N = 4`, garbage byte 1 before the array) reads the internal
buffer at index -1 - the terminator check `_scLine[_ucLength - 1]` with
`_ucLength = 0` is an out-of-bounds read below the array, contradicting the
claimed in-bounds property. -/
theorem C10_eval :
    (-1 : Int) ∈ (nText.setLineRun 4 ⟨List.replicate 5 0, 0⟩ 1 [] 0).accesses := by
  decide

/-! ## Helper: explicit form of `setLine` -/

/-- Unfolding of `setLine` to its components, for a caller-supplied
evaluation `len` of the truncated length. -/
theorem setLine_unfold (N : Nat) (st : nText.cTextLine) (g : Nat)
    (src : List Nat) (L len : Nat)
    (hlen : len = (if (((L % 256 : Nat) : Int) > (N : Int) - 1) then
      nText.truncU8 ((N : Int) - 1) else L % 256)) :
    nText.setLine N st g src L =
      { _scLine :=
          if (if len = 0 then g
              else (nText.copyChars st._scLine src len).getD (len - 1) 0) ≠ 0
          then (nText.copyChars st._scLine src len).set len 0
          else nText.copyChars st._scLine src len
      , _ucLength := len } := by
  subst hlen
  rfl

/-! ## Claim C6 -/

/-- Claim C6: for every valid `N ≥ 1` and every `uint8_t` length argument
`L` (so `L ≤ 255`), after `setLine(source, L)` the reported length
`getLineLength()` is exactly `min L (N - 1)`, for any source and any prior
state - in particular installing a missing terminator never changes the
reported length. -/
theorem C6_getLineLength_min (N : Nat) (st : nText.cTextLine) (g : Nat)
    (src : List Nat) (L : Nat) (hN : 1 ≤ N) (hL : L ≤ 255) :
    nText.getLineLength (nText.setLine N st g src L) = min L (N - 1) := by
  have hmod : L % 256 = L := Nat.mod_eq_of_lt (by omega)
  have hlen : nText.getLineLength (nText.setLine N st g src L) =
      (if (((L % 256 : Nat) : Int) > (N : Int) - 1) then
        nText.truncU8 ((N : Int) - 1) else L % 256) := rfl
  rw [hlen, hmod]
  split
  · rename_i hgt
    unfold nText.truncU8
    omega
  · rename_i hle
    omega

/-- Claim C6, witness at `N = 4`, `L = 200`: the reported length is
`min 200 3 = 3`. -/
theorem C6_witness :
    1 ≤ 4 ∧ 200 ≤ 255 ∧
      nText.getLineLength (nText.setLine 4 ⟨List.replicate 5 0, 0⟩ 0 [] 200) =
        min 200 (4 - 1) :=
  ⟨by decide, by decide,
    C6_getLineLength_min 4 ⟨List.replicate 5 0, 0⟩ 0 [] 200 (by decide)
      (by decide)⟩

/-! ## Claim C5 -/

set_option maxRecDepth 4000 in
/-- Claim C5, counterexample: constructing `cTextLine<2>` from a source
string of length `L = 256` (256 non-NUL bytes 97) yields stored length 0,
not `N - 1 = 1` as the claim requires for `L ≥ N` - `strlen` is narrowed to
the `uint8_t` parameter, so the length argument arrives as `256 mod 256 = 0`. -/
theorem C5_cex :
    nText.getLineLength
        (nText.ofString 2 (List.replicate 3 0) 7 (List.replicate 256 97)) = 0 ∧
      (0 : Nat) ≠ 2 - 1 := by decide

/-- Claim C5 as amended: for every valid `N ≥ 1` and every source string of
length `L` with `1 ≤ L ≤ 255` (all bytes non-NUL, `strlen` semantics),
calling `setLine(source, L)` - hence also both constructors, which delegate
to it - yields: if `L < N`, stored length `L`, the first `L` buffer bytes
are the source bytes and the buffer is terminator-delimited at position `L`;
if `L ≥ N`, stored length `N - 1` and the first `N - 1` buffer bytes are the
first `N - 1` source bytes.  The original claim fails for `L = 0` (the
terminator is then only installed if the garbage byte before the array is
non-NUL) and for `L ≥ 256` (narrowed modulo 256). -/
theorem C5_setLine_behavior (N : Nat) (st : nText.cTextLine) (g : Nat)
    (src : List Nat) (hN : 1 ≤ N) (hbuf : st._scLine.length = N + 1)
    (hL1 : 1 ≤ src.length) (hL2 : src.length ≤ 255)
    (hsrc : ∀ c ∈ src, c ≠ 0) :
    (src.length < N →
      nText.getLineLength (nText.setLine N st g src src.length) = src.length ∧
      (∀ i, i < src.length →
        (nText.setLine N st g src src.length)._scLine.getD i 0 =
          src.getD i 0) ∧
      nText.nulTerminatedAt (nText.setLine N st g src src.length)._scLine
        src.length) ∧
    (N ≤ src.length →
      nText.getLineLength (nText.setLine N st g src src.length) = N - 1 ∧
      ∀ i, i < N - 1 →
        (nText.setLine N st g src src.length)._scLine.getD i 0 =
          src.getD i 0) := by
  have hmod : src.length % 256 = src.length := Nat.mod_eq_of_lt (by omega)
  constructor
  · intro hLN
    have hcond : ¬(((src.length % 256 : Nat) : Int) > (N : Int) - 1) := by
      rw [hmod]; omega
    rw [setLine_unfold N st g src src.length src.length
      (by rw [if_neg hcond]; exact hmod.symm)]
    have hlast : (if src.length = 0 then g
        else (nText.copyChars st._scLine src src.length).getD
          (src.length - 1) 0) ≠ 0 := by
      rw [if_neg (by omega),
        copyChars_getD_lt st._scLine src src.length (src.length - 1)
          (by omega) (by omega)]
      exact hsrc _ (getD_mem src (src.length - 1) 0 (by omega))
    rw [if_pos hlast]
    refine ⟨rfl, ?_, ?_, ?_⟩
    · intro i hi
      show ((nText.copyChars st._scLine src src.length).set
        src.length 0).getD i 0 = src.getD i 0
      rw [getD_set_ne _ _ _ _ _ (by omega)]
      exact copyChars_getD_lt st._scLine src src.length i hi (by omega)
    · show ((nText.copyChars st._scLine src src.length).set
        src.length 0).getD src.length 0 = 0
      exact getD_set_self _ _ _ _ (by rw [copyChars_length]; omega)
    · intro i hi
      show ((nText.copyChars st._scLine src src.length).set
        src.length 0).getD i 0 ≠ 0
      rw [getD_set_ne _ _ _ _ _ (by omega),
        copyChars_getD_lt st._scLine src src.length i hi (by omega)]
      exact hsrc _ (getD_mem src i 0 (by omega))
  · intro hNL
    have hcond : (((src.length % 256 : Nat) : Int) > (N : Int) - 1) := by
      rw [hmod]; omega
    have htr : N - 1 = nText.truncU8 ((N : Int) - 1) := by
      unfold nText.truncU8; omega
    rw [setLine_unfold N st g src src.length (N - 1)
      (by rw [if_pos hcond]; exact htr)]
    rcases Nat.lt_or_ge N 2 with hN1 | hN2
    · refine ⟨rfl, ?_⟩
      intro i hi
      exact absurd hi (by omega)
    · have hlast : (if N - 1 = 0 then g
          else (nText.copyChars st._scLine src (N - 1)).getD
            (N - 1 - 1) 0) ≠ 0 := by
        rw [if_neg (by omega),
          copyChars_getD_lt st._scLine src (N - 1) (N - 1 - 1)
            (by omega) (by omega)]
        exact hsrc _ (getD_mem src (N - 1 - 1) 0 (by omega))
      rw [if_pos hlast]
      refine ⟨rfl, ?_⟩
      intro i hi
      show ((nText.copyChars st._scLine src (N - 1)).set
        (N - 1) 0).getD i 0 = src.getD i 0
      rw [getD_set_ne _ _ _ _ _ (by omega)]
      exact copyChars_getD_lt st._scLine src (N - 1) i hi (by omega)

/-- Claim C5, witness for the amended theorem at `N = 4` and the length-2
source `[72, 73]`. -/
theorem C5_witness :
    (2 < 4 →
      nText.getLineLength
          (nText.setLine 4 ⟨List.replicate 5 0, 0⟩ 1 [72, 73] 2) = 2 ∧
      (∀ i, i < 2 →
        (nText.setLine 4 ⟨List.replicate 5 0, 0⟩ 1 [72, 73] 2)._scLine.getD
          i 0 = [72, 73].getD i 0) ∧
      nText.nulTerminatedAt
        (nText.setLine 4 ⟨List.replicate 5 0, 0⟩ 1 [72, 73] 2)._scLine 2) ∧
    (4 ≤ 2 →
      nText.getLineLength
          (nText.setLine 4 ⟨List.replicate 5 0, 0⟩ 1 [72, 73] 2) = 4 - 1 ∧
      ∀ i, i < 4 - 1 →
        (nText.setLine 4 ⟨List.replicate 5 0, 0⟩ 1 [72, 73] 2)._scLine.getD
          i 0 = [72, 73].getD i 0) :=
  C5_setLine_behavior 4 ⟨List.replicate 5 0, 0⟩ 1 [72, 73] (by decide)
    (by decide) (by decide) (by decide) (by decide)

/-! ## Claim C4 -/

/-- The `blockingWriteLine` loop refines `writeSpec`: starting at source
index `uc` with `cap = N - uc ≥ 1` characters still allowed and enough fuel,
the loop exits by `break` having emitted exactly the `writeSpec` characters.
Requires `N ≤ 255` so that the 8-bit `ucLength` counter never wraps. -/
theorem writeLineLoop_spec (N : Nat) (src : List Nat) (hN2 : N ≤ 255) :
    ∀ (cap uc fuel : Nat) (acc : List Nat), uc + cap = N → 1 ≤ cap →
      cap ≤ fuel →
      nText.writeLineLoop N src fuel uc acc =
        (true, acc ++ nText.writeSpec src cap uc) := by
  intro cap
  induction cap with
  | zero => intro uc fuel acc _ h1 _; exact absurd h1 (by omega)
  | succ c ih =>
    intro uc fuel acc hsum hc hfuel
    cases fuel with
    | zero => exact absurd hfuel (by omega)
    | succ f =>
      have hwrap : (uc + 1) % 256 = uc + 1 := Nat.mod_eq_of_lt (by omega)
      by_cases h0 : src.getD uc 0 = 0
      · simp only [nText.writeLineLoop, nText.writeSpec, hwrap, h0, if_pos]
        simp
      · rcases Nat.lt_or_ge (uc + 1) N with hlt | hge
        · simp only [nText.writeLineLoop, nText.writeSpec, hwrap]
          rw [if_neg h0, if_neg (by omega), if_neg h0]
          rw [ih (uc + 1) f (acc ++ [src.getD uc 0]) (by omega) (by omega)
            (by omega)]
          simp
        · have hcap1 : c = 0 := by omega
          subst hcap1
          simp only [nText.writeLineLoop, nText.writeSpec, hwrap]
          rw [if_neg h0, if_pos (by omega), if_neg h0]

/-- `writeSpec` in closed form: the characters emitted from index `uc` with
allowance `cap` are the longest NUL-free prefix of the next `cap` source
characters. -/
theorem writeSpec_eq_take_takeWhile (src : List Nat) :
    ∀ (cap uc : Nat), nText.writeSpec src cap uc =
      ((src.drop uc).take cap).takeWhile (fun c => c != 0) := by
  intro cap
  induction cap with
  | zero => intro uc; simp [nText.writeSpec]
  | succ c ih =>
    intro uc
    rcases Nat.lt_or_ge uc src.length with h | h
    · rw [List.drop_eq_getElem_cons h, List.take_succ_cons,
        List.takeWhile_cons]
      have hgd : src.getD uc 0 = src[uc] := List.getD_eq_getElem src 0 h
      by_cases h0 : src[uc] = 0
      · simp only [nText.writeSpec, hgd, h0]
        simp
      · simp only [nText.writeSpec, hgd]
        rw [if_neg h0, if_pos (by simp [h0]), ih (uc + 1)]
    · have hd : src.drop uc = [] := List.drop_eq_nil_of_le h
      have hgd : src.getD uc 0 = 0 := List.getD_eq_default src 0 h
      simp only [nText.writeSpec]
      rw [if_pos hgd, hd]
      simp

set_option maxRecDepth 8000 in
/-- Claim C4, counterexample: the claim fails outside `1 ≤ N ≤ 255`.  For
`N = 0` with source byte 97, `characterWrite` is invoked once - one more
than `N`.  For `N = 256` with 256 non-NUL source bytes, the 8-bit `char`
write counter wraps to 0 before the `ucLength >= N` test can ever hold, so
after 258 loop iterations the loop has emitted 258 characters (more than
`N`) and has still not exited. -/
theorem C4_cex :
    nText.blockingWriteLine 0 [97] 2 = (true, [97]) ∧
      nText.blockingWriteLine 256 (List.replicate 256 97) 258 =
        (false, List.replicate 258 97) := by
  constructor
  · decide
  · decide

/-- Claim C4 as amended: for every `N` with `1 ≤ N ≤ 255` (the range where
the 8-bit `char` counter cannot wrap; plain `char` is unsigned on the ARM
targets) and every terminator-delimited source, `blockingWriteLine` invokes
`characterWrite` once per source character in order, stopping at the first
terminator (which is not written) or after `N` characters, whichever comes
first: the emitted characters are exactly the longest NUL-free prefix of
the first `N` source characters, and the loop terminates. -/
theorem C4_writes (N : Nat) (src : List Nat) (h1 : 1 ≤ N) (h2 : N ≤ 255) :
    nText.blockingWriteLine N src (N + 1) =
      (true, (src.take N).takeWhile (fun c => c != 0)) := by
  unfold nText.blockingWriteLine
  rw [writeLineLoop_spec N src h2 N 0 (N + 1) [] (by omega) h1 (by omega)]
  rw [writeSpec_eq_take_takeWhile]
  simp

/-- Claim C4, witness for the amended theorem at `N = 3` and the source
`[104, 105, 0, 106]`: exactly bytes 104, 105 are written. -/
theorem C4_witness :
    1 ≤ 3 ∧ 3 ≤ 255 ∧
      nText.blockingWriteLine 3 [104, 105, 0, 106] 4 =
        (true, ([104, 105, 0, 106].take 3).takeWhile (fun c => c != 0)) :=
  ⟨by decide, by decide,
    C4_writes 3 [104, 105, 0, 106] (by decide) (by decide)⟩

/-! ## Helper lemmas for the observer pattern -/

/-- Characterization of a fresh `cObserved` after appending `k ≤ 6` non-null
listeners: the count is `k` and the slot array holds them in registration
order, followed by the remaining NULL slots. -/
theorem appendAll_map_some (e : Nat) (ls : List Nat) (h : ls.length ≤ 6) :
    nPattern.appendAll (nPattern.mkObserved e) (ls.map some) =
      { _ulEvent := e, _ucListenerCount := ls.length
      , _pxListener := ls.map some ++ List.replicate (6 - ls.length) none } := by
  induction ls using List.reverseRecOn with
  | nil => rfl
  | append_singleton l a ih =>
    have hlt : l.length < 6 := by
      rw [List.length_append] at h; simp at h; omega
    have hstep : nPattern.appendAll (nPattern.mkObserved e) ((l ++ [a]).map some) =
        nPattern.appendObserver
          (nPattern.appendAll (nPattern.mkObserved e) (l.map some)) (some a) := by
      rw [List.map_append]
      unfold nPattern.appendAll
      rw [List.foldl_append]
      rfl
    rw [hstep, ih (by omega)]
    unfold nPattern.appendObserver
    rw [if_pos (by simpa using hlt)]
    have hrep : List.replicate (6 - l.length) (none : Option Nat) =
        none :: List.replicate (6 - l.length - 1) none := by
      rw [show 6 - l.length = (6 - l.length - 1) + 1 by omega]
      rfl
    have h1 : (l.map some ++ List.replicate (6 - l.length) none).set
        l.length (some a) =
          l.map some ++ (List.replicate (6 - l.length) none).set 0 (some a) := by
      have hs := set_append_left_length (l.map some)
        (List.replicate (6 - l.length) (none : Option Nat)) (some a)
      rw [List.length_map] at hs
      exact hs
    have hslots :
        ((l.map some ++ List.replicate (6 - l.length) none).set
            l.length (some a)) =
          (l ++ [a]).map some ++ List.replicate (6 - (l ++ [a]).length) none := by
      rw [h1, hrep]
      rw [show 6 - l.length - 1 = 6 - (l ++ [a]).length from by simp; omega]
      simp [List.map_append]
    rw [hslots, show (l ++ [a]).length = l.length + 1 from by simp]

/-- The `notify` loop over a slot array that holds `pre`, then the non-null
listeners `xs`, then arbitrary padding, with the listener count covering
exactly `pre` and `xs`: starting at index `pre.length` it produces the
`notifySpec` trace of `xs`. -/
theorem notifyFrom_shape (upd : Nat → Bool) :
    ∀ (xs : List Nat) (pre pad : List (Option Nat)),
      nPattern.notifyFrom upd (pre.length + xs.length)
        (pre ++ (xs.map some ++ pad)) pre.length =
        nPattern.notifySpec upd xs := by
  intro xs
  induction xs with
  | nil =>
    intro pre pad
    rw [nPattern.notifyFrom]
    rw [dif_neg (by simp)]
    rfl
  | cons x t ih =>
    intro pre pad
    rw [nPattern.notifyFrom]
    rw [dif_pos (by simp)]
    have hget : (pre ++ ((x :: t).map some ++ pad)).getD pre.length none =
        some x := by
      rw [getD_append_right]
      rfl
    rw [hget]
    have hassoc : pre ++ ((x :: t).map some ++ pad) =
        (pre ++ [some x]) ++ (t.map some ++ pad) := by simp
    by_cases hx : upd x
    · simp [nPattern.notifySpec, hx]
    · simp only [hx, if_neg, Bool.false_eq_true]
      have hlen : pre.length + (x :: t).length =
          (pre ++ [some x]).length + t.length := by simp; omega
      rw [hassoc, hlen, show pre.length + 1 = (pre ++ [some x]).length by simp]
      rw [ih (pre ++ [some x]) pad]
      simp [nPattern.notifySpec, hx]

/-- The listener count after any sequence of appends, starting from a state
within capacity, is capped at 6. -/
theorem appendAll_count :
    ∀ (ls : List (Option Nat)) (st : nPattern.cObserved),
      st._ucListenerCount ≤ 6 →
      (nPattern.appendAll st ls)._ucListenerCount =
        min (st._ucListenerCount + ls.length) 6
  | [], st, h => by
      unfold nPattern.appendAll
      simp
      omega
  | p :: t, st, h => by
      have hstep : nPattern.appendAll st (p :: t) =
          nPattern.appendAll (nPattern.appendObserver st p) t := rfl
      rw [hstep]
      rcases Nat.lt_or_ge st._ucListenerCount 6 with hlt | hge
      · have hcnt : (nPattern.appendObserver st p)._ucListenerCount =
            st._ucListenerCount + 1 := by
          unfold nPattern.appendObserver
          rw [if_pos (show st._ucListenerCount <
            nPattern.COBSERVED_LISTENER_MAX from hlt)]
        rw [appendAll_count t (nPattern.appendObserver st p)
          (by rw [hcnt]; omega), hcnt]
        simp
        omega
      · have hid : nPattern.appendObserver st p = st := by
          unfold nPattern.appendObserver
          rw [if_neg (show ¬ st._ucListenerCount <
            nPattern.COBSERVED_LISTENER_MAX from by
              rw [show nPattern.COBSERVED_LISTENER_MAX = 6 from rfl]
              omega)]
        rw [hid, appendAll_count t st h]
        simp
        omega

/-! ## Claim C7 -/

/-- Claim C7: for every fresh `Observed` with `k ≤ 6` registered (non-null)
listeners, `notify()` invokes the listeners in registration order up to and
including the first whose `update` returns true, never invoking any later
one; if none accepts, all `k` are invoked exactly once.  This is stated as
equality of the invocation trace with `notifySpec`, the direct rendering of
that contract. -/
theorem C7_notify_order (e : Nat) (ls : List Nat) (upd : Nat → Bool)
    (h : ls.length ≤ 6) :
    nPattern.notify (nPattern.appendAll (nPattern.mkObserved e) (ls.map some))
        upd =
      nPattern.notifySpec upd ls := by
  rw [appendAll_map_some e ls h]
  unfold nPattern.notify
  have hmain := notifyFrom_shape upd ls []
    (List.replicate (6 - ls.length) none)
  simpa using hmain

/-- Claim C7, witness: three listeners 1, 2, 3 where only listener 2
accepts - the trace is `[1, 2]`, listener 3 is never invoked. -/
theorem C7_witness :
    [1, 2, 3].length ≤ 6 ∧
      nPattern.notify
          (nPattern.appendAll (nPattern.mkObserved 0) ([1, 2, 3].map some))
          (fun l => l == 2) =
        nPattern.notifySpec (fun l => l == 2) [1, 2, 3] :=
  ⟨by decide, C7_notify_order 0 [1, 2, 3] (fun l => l == 2) (by decide)⟩

/-! ## Claim C8 -/

/-- Claim C8: for every fresh `Observed` and every sequence of
`appendObserver` calls, the listener count never exceeds the capacity 6,
and once at least 6 appends have happened any further append is a no-op,
leaving the whole state - count, registered listeners and their
positions - unchanged. -/
theorem C8_capacity (e : Nat) (ls : List (Option Nat)) (p : Option Nat) :
    (nPattern.appendAll (nPattern.mkObserved e) ls)._ucListenerCount ≤ 6 ∧
      (6 ≤ ls.length →
        nPattern.appendObserver
            (nPattern.appendAll (nPattern.mkObserved e) ls) p =
          nPattern.appendAll (nPattern.mkObserved e) ls) := by
  have hc := appendAll_count ls (nPattern.mkObserved e) (Nat.zero_le 6)
  have hzero : (nPattern.mkObserved e)._ucListenerCount = 0 := rfl
  rw [hzero] at hc
  constructor
  · rw [hc]; omega
  · intro h6
    unfold nPattern.appendObserver
    rw [if_neg (by
      rw [hc, show nPattern.COBSERVED_LISTENER_MAX = 6 from rfl]
      omega)]

/-- Claim C8, witness: seven appends to a fresh `Observed`; the count is
capped at 6 and the eighth append is a no-op. -/
theorem C8_witness :
    (nPattern.appendAll (nPattern.mkObserved 0)
        (List.replicate 7 (some 1)))._ucListenerCount ≤ 6 ∧
      (6 ≤ (List.replicate 7 (some (1 : Nat))).length →
        nPattern.appendObserver
            (nPattern.appendAll (nPattern.mkObserved 0)
              (List.replicate 7 (some 1))) (some 9) =
          nPattern.appendAll (nPattern.mkObserved 0)
            (List.replicate 7 (some 1))) :=
  C8_capacity 0 (List.replicate 7 (some 1)) (some 9)

/-! ## Claim C9 -/

/-- Claim C9: for every 24-slot dispatch table, (a) `attach` on an
out-of-range or occupied pin returns false and leaves the table unchanged;
(b) after a successful `attach(pin, h1, mode)`, a second
`attach(pin, h2, mode)` with no detach in between returns false with `h1`
still attached, while `deattach(pin)` followed by `attach(pin, h2, mode)`
succeeds; (c) `deattach` returns whether something was cleared (the pin was
in range and occupied). -/
theorem C9_attach_deattach (tbl : List (Option Nat)) (pin h1 h2 : Nat)
    (hlen : tbl.length = 24) :
    ((¬ pin < 24 ∨ tbl.getD pin none ≠ none) →
      nSupport.attach tbl pin h1 = (false, tbl)) ∧
    (pin < 24 → tbl.getD pin none = none →
      nSupport.attach tbl pin h1 = (true, tbl.set pin (some h1)) ∧
      nSupport.attach (tbl.set pin (some h1)) pin h2 =
        (false, tbl.set pin (some h1)) ∧
      (tbl.set pin (some h1)).getD pin none = some h1 ∧
      nSupport.deattach (tbl.set pin (some h1)) pin =
        (true, (tbl.set pin (some h1)).set pin none) ∧
      nSupport.attach ((tbl.set pin (some h1)).set pin none) pin h2 =
        (true, ((tbl.set pin (some h1)).set pin none).set pin (some h2))) ∧
    ((nSupport.deattach tbl pin).1 = true ↔
      pin < 24 ∧ (tbl.getD pin none).isSome = true) := by
  refine ⟨?_, ?_, ?_⟩
  · intro hcase
    unfold nSupport.attach
    rw [if_neg (by
      rintro ⟨hin, hempty⟩
      rcases hcase with hc | hc
      · exact hc hin
      · exact hc hempty)]
  · intro hp he
    have hset : (tbl.set pin (some h1)).getD pin none = some h1 :=
      getD_set_self tbl pin (some h1) none (by omega)
    have hset2 : ((tbl.set pin (some h1)).set pin none).getD pin none =
        none :=
      getD_set_self _ pin none none (by rw [List.length_set]; omega)
    refine ⟨?_, ?_, hset, ?_, ?_⟩
    · unfold nSupport.attach
      rw [if_pos ⟨hp, he⟩]
    · unfold nSupport.attach
      rw [if_neg (by
        rintro ⟨_, hempty⟩
        rw [hset] at hempty
        exact Option.some_ne_none h1 hempty)]
    · unfold nSupport.deattach
      rw [if_pos ⟨hp, by rw [hset]; rfl⟩]
    · unfold nSupport.attach
      rw [if_pos ⟨hp, hset2⟩]
  · unfold nSupport.deattach
    by_cases hcond :
        pin < nSupport.CIRQMONITORED_MAX ∧ (tbl.getD pin none).isSome = true
    · rw [if_pos hcond]
      simp only [true_iff]
      exact hcond
    · rw [if_neg hcond]
      simp only [Bool.false_eq_true, false_iff]
      exact hcond

/-- Claim C9, witness on the empty 24-slot table with pin 3 and handlers 5
and 8. -/
theorem C9_witness :
    ((¬ 3 < 24 ∨ (List.replicate 24 (none : Option Nat)).getD 3 none ≠ none) →
      nSupport.attach (List.replicate 24 none) 3 5 =
        (false, List.replicate 24 none)) ∧
    (3 < 24 → (List.replicate 24 (none : Option Nat)).getD 3 none = none →
      nSupport.attach (List.replicate 24 none) 3 5 =
        (true, (List.replicate 24 none).set 3 (some 5)) ∧
      nSupport.attach ((List.replicate 24 none).set 3 (some 5)) 3 8 =
        (false, (List.replicate 24 none).set 3 (some 5)) ∧
      ((List.replicate 24 none).set 3 (some 5)).getD 3 none = some 5 ∧
      nSupport.deattach ((List.replicate 24 none).set 3 (some 5)) 3 =
        (true, (((List.replicate 24 none).set 3 (some 5)).set 3 none)) ∧
      nSupport.attach (((List.replicate 24 none).set 3 (some 5)).set 3 none)
          3 8 =
        (true,
          ((((List.replicate 24 none).set 3 (some 5)).set 3 none).set 3
            (some 8)))) ∧
    ((nSupport.deattach (List.replicate 24 none) 3).1 = true ↔
      3 < 24 ∧
        ((List.replicate 24 (none : Option Nat)).getD 3 none).isSome = true) :=
  C9_attach_deattach (List.replicate 24 none) 3 5 8 (by decide)
